import Mathlib

/-!
# Verification of the destination-resolution and failover-forwarding engine
# of `cloudflare-worker-email-forwarder` (`src/worker.js`)

Shallow embedding conventions:
* JavaScript strings are modelled as `List Char`; `String.prototype.trim`,
  `indexOf`, `split`, `startsWith`, `includes`, `slice` and `toLowerCase`
  are modelled by the executable functions below.
* The external `message.forward` transport call is an oracle
  `forward : List Char → ForwardOutcome`; a thrown delivery error is the
  `ForwardOutcome.failure msg` value carrying the error message.
* The configurable recoverable-error regexp test and the email-address
  validity regexp test are oracles `recoverable, valid : List Char → Bool`.
* Fallible/raising code is modelled in `Except`; a raised
  `RecoverableForwardError` is the `Except.error` case carrying the list of
  aggregated delivery error messages.
-/

set_option autoImplicit false

/-- JS whitespace test used by `String.prototype.trim` (restricted to the
ASCII whitespace characters relevant here). -/
def isJsSpace (c : Char) : Bool := c.isWhitespace

/-- Models `s.trim()`: removes whitespace from both ends. -/
def jsTrim (s : List Char) : List Char :=
  ((s.dropWhile isJsSpace).reverse.dropWhile isJsSpace).reverse

/-- Boolean prefix test, models `s.startsWith(p)` (with arguments
`leadsWith p s`). -/
def leadsWith : List Char → List Char → Bool
  | [], _ => true
  | _ :: _, [] => false
  | a :: as, b :: bs => a == b && leadsWith as bs

theorem leadsWith_iff (p s : List Char) : leadsWith p s = true ↔ ∃ t, p ++ t = s := by
  induction p generalizing s with
  | nil => simp [leadsWith]
  | cons a as ih =>
    cases s with
    | nil => simp [leadsWith]
    | cons b bs =>
      simp only [leadsWith, Bool.and_eq_true, beq_iff_eq, ih, List.cons_append]
      constructor
      · rintro ⟨rfl, t, rfl⟩
        exact ⟨t, rfl⟩
      · rintro ⟨t, ht⟩
        injection ht with h1 h2
        exact ⟨h1, t, h2⟩

/-- Models `s.indexOf(sep)` (as `firstIndexOf s sep`): index of the first
occurrence of `sep` in `s`, `none` when absent (JS returns `-1` there). -/
def firstIndexOf : List Char → List Char → Option Nat
  | [], sep => if leadsWith sep [] then some 0 else none
  | c :: t, sep =>
    if leadsWith sep (c :: t) then some 0
    else Option.map (· + 1) (firstIndexOf t sep)

theorem firstIndexOf_cons_of_not_leads {c : Char} {t sep : List Char}
    (hl : ¬leadsWith sep (c :: t) = true) :
    firstIndexOf (c :: t) sep = Option.map (· + 1) (firstIndexOf t sep) := by
  simp [firstIndexOf, hl]

theorem firstIndexOf_eq_none {s sep : List Char} (h : firstIndexOf s sep = none) :
    ∀ u v : List Char, s ≠ u ++ sep ++ v := by
  induction s with
  | nil =>
    intro u v he
    have h2 := he.symm
    rw [List.append_assoc, List.append_eq_nil] at h2
    obtain ⟨hu, h3⟩ := h2
    rw [List.append_eq_nil] at h3
    obtain ⟨hsep, hv⟩ := h3
    rw [hsep] at h
    simp [firstIndexOf, leadsWith] at h
  | cons c t ih =>
    intro u v he
    by_cases hl : leadsWith sep (c :: t) = true
    · simp [firstIndexOf, hl] at h
    · rw [firstIndexOf_cons_of_not_leads hl, Option.map_eq_none'] at h
      cases u with
      | nil =>
        simp only [List.nil_append] at he
        exact hl ((leadsWith_iff sep (c :: t)).mpr ⟨v, he.symm⟩)
      | cons a u2 =>
        rw [List.append_assoc] at he
        injection he with h1 h2
        exact ih h u2 v (by rw [List.append_assoc]; exact h2)

theorem firstIndexOf_eq_some {s sep : List Char} :
    ∀ {i : Nat}, firstIndexOf s sep = some i →
      s.take i ++ sep ++ s.drop (i + sep.length) = s
      ∧ i + sep.length ≤ s.length
      ∧ ∀ u v : List Char, s = u ++ sep ++ v → i ≤ u.length := by
  induction s with
  | nil =>
    intro i h
    by_cases hl : leadsWith sep [] = true
    · have hsep : sep = [] := by
        cases sep with
        | nil => rfl
        | cons a as => simp [leadsWith] at hl
      subst hsep
      simp only [firstIndexOf, leadsWith, if_true, Option.some.injEq] at h
      subst h
      exact ⟨by simp, by simp, fun u v _ => by omega⟩
    · simp [firstIndexOf, hl] at h
  | cons c t ih =>
    intro i h
    by_cases hl : leadsWith sep (c :: t) = true
    · have h0 : i = 0 := by
        simp only [firstIndexOf, hl, if_true, Option.some.injEq] at h
        omega
      subst h0
      obtain ⟨w, hw⟩ := (leadsWith_iff sep (c :: t)).mp hl
      refine ⟨?_, ?_, ?_⟩
      · simp only [List.take_zero, List.nil_append, Nat.zero_add]
        rw [← hw, List.drop_left]
      · have := congrArg List.length hw
        simp only [List.length_append, List.length_cons] at this
        simp only [List.length_cons]
        omega
      · intro u v _
        omega
    · have hmap : ∃ j, firstIndexOf t sep = some j ∧ i = j + 1 := by
        rw [firstIndexOf_cons_of_not_leads hl] at h
        cases hft : firstIndexOf t sep with
        | none => rw [hft] at h; simp at h
        | some j =>
          rw [hft] at h
          simp only [Option.map_some', Option.some.injEq] at h
          exact ⟨j, rfl, h.symm⟩
      obtain ⟨j, hj, rfl⟩ := hmap
      obtain ⟨ha, hb, hc⟩ := ih hj
      refine ⟨?_, ?_, ?_⟩
      · have hdrop : (c :: t).drop (j + 1 + sep.length) = t.drop (j + sep.length) := by
          have : j + 1 + sep.length = (j + sep.length) + 1 := by omega
          rw [this, List.drop_succ_cons]
        rw [List.take_succ_cons, hdrop, List.cons_append, List.cons_append]
        exact congrArg (c :: ·) ha
      · simp only [List.length_cons]
        omega
      · intro u v he
        cases u with
        | nil =>
          simp only [List.nil_append] at he
          exact absurd ((leadsWith_iff sep (c :: t)).mpr ⟨v, he.symm⟩) hl
        | cons a u2 =>
          rw [List.append_assoc] at he
          injection he with h1 h2
          have := hc u2 v (by rw [List.append_assoc]; exact h2)
          simp only [List.length_cons]
          omega

/-- Helper of `splitOnSep`, structurally recursive on a fuel argument that
bounds the number of separator occurrences (each occurrence consumes at
least one character, so `s.length` fuel is always enough). -/
def splitOnSepFuel (sep : List Char) : Nat → List Char → List (List Char)
  | 0, s => [s]
  | Nat.succ fuel, s =>
    match firstIndexOf s sep with
    | none => [s]
    | some i =>
      if sep.length = 0 then [s]
      else s.take i :: splitOnSepFuel sep fuel (s.drop (i + sep.length))

/-- Models `s.split(sep)` for a non-empty separator string (all separators in
the worker's configuration are non-empty by requirement). -/
def splitOnSep (sep s : List Char) : List (List Char) :=
  splitOnSepFuel sep s.length s

/-- The lower-cased `(user, subaddress)` split of a local part; models
`DEFAULTS.addressLocalParts` (`worker.js` lines 154-164): lower-case, then
split on the first occurrence of the local-part separator only, with an
empty subaddress when the separator is absent. -/
def addressLocalParts (localPart formatLocalPartSeparator : List Char) :
    List Char × List Char :=
  let lowerCaseLocalPart := localPart.map Char.toLower
  match firstIndexOf lowerCaseLocalPart formatLocalPartSeparator with
  | some i =>
      (lowerCaseLocalPart.take i,
       lowerCaseLocalPart.drop (i + formatLocalPartSeparator.length))
  | none => (lowerCaseLocalPart, [])

/-- C9: for every local part and separator, `addressLocalParts` splits the
lower-cased local part on the first occurrence of the separator only (the
reassembly equation holds and the user part is the shortest prefix preceding
any occurrence), returns an empty subaddress when the separator is absent,
and is invariant under case changes of the input. -/
theorem addressLocalParts_first_split_case_invariant (localPart sep : List Char) :
    (∀ other : List Char, other.map Char.toLower = localPart.map Char.toLower →
        addressLocalParts other sep = addressLocalParts localPart sep)
    ∧ (∀ u v : List Char, localPart.map Char.toLower = u ++ sep ++ v →
        (addressLocalParts localPart sep).1 ++ sep ++ (addressLocalParts localPart sep).2
            = localPart.map Char.toLower
        ∧ (addressLocalParts localPart sep).1.length ≤ u.length)
    ∧ ((∀ u v : List Char, localPart.map Char.toLower ≠ u ++ sep ++ v) →
        addressLocalParts localPart sep = (localPart.map Char.toLower, [])) := by
  refine ⟨?_, ?_, ?_⟩
  · intro other hother
    simp only [addressLocalParts, hother]
  · intro u v hdec
    cases hfi : firstIndexOf (localPart.map Char.toLower) sep with
    | none => exact absurd hdec (firstIndexOf_eq_none hfi u v)
    | some i =>
      obtain ⟨ha, hb, hc⟩ := firstIndexOf_eq_some hfi
      constructor
      · simp only [addressLocalParts, hfi]
        exact ha
      · simp only [addressLocalParts, hfi]
        have := hc u v hdec
        simp only [List.length_take]
        omega
  · intro hno
    cases hfi : firstIndexOf (localPart.map Char.toLower) sep with
    | some i =>
      obtain ⟨ha, _, _⟩ := firstIndexOf_eq_some hfi
      exact absurd ha.symm (hno _ _)
    | none => simp [addressLocalParts, hfi]

/-- Witness for C9 at the spec's example inputs: `"USER1+SUBA"` and
`"user1+suba"` yield identical `(user, subaddress)` pairs. -/
theorem addressLocalParts_first_split_case_invariant_witness :
    addressLocalParts ("USER1+SUBA".data) ("+".data)
      = addressLocalParts ("user1+suba".data) ("+".data) :=
  (addressLocalParts_first_split_case_invariant ("user1+suba".data) ("+".data)).1
    ("USER1+SUBA".data) (by decide)

/-- A test in `FIXED.prepend`'s condition list: either a string test
(`base.startsWith(test)`) or the `FIXED.startsWithNonAlphanumericRegExp`
test `/^[^A-Z0-9]/i` (first character not an ASCII letter or digit). -/
inductive PrependTest
  | strTest (t : List Char)
  | nonAlphanumericStart

/-- Whether a `PrependTest` matches a base string. -/
def testMatches : PrependTest → List Char → Bool
  | PrependTest.strTest t, base => leadsWith t base
  | PrependTest.nonAlphanumericStart, base =>
    match base with
    | [] => false
    | c :: _ => !c.isAlphanum

/-- Models `FIXED.prepend` (`worker.js` lines 48-59): returns
`prependWith ++ base` for the first matching condition, else `base`. -/
def prepend (base : List Char) : List (PrependTest × List Char) → List Char
  | [] => base
  | (t, p) :: rest => if testMatches t base then p ++ base else prepend base rest

/-- Outcome of one external `message.forward` delivery attempt: success, or a
thrown error carrying its message. -/
inductive ForwardOutcome
  | success
  | failure (msg : List Char)
deriving DecidableEq

/-- One entry of `errorMessages` pushed in `forwardToPrimaryDestination`
(`worker.js` lines 238-243). -/
structure ErrorRecord where
  primaryDestinationId : Nat
  backupDestinationId : Nat
  backupDestination : List Char
  errorMessage : List Char
deriving DecidableEq

/-- Models the `PrimaryDestinationResult` class (`worker.js` lines 62-70);
`errors` holds the messages of the caught `Error` objects. -/
structure PrimaryDestinationResult where
  wasSuccessful : Bool
  hadRecoverableError : Bool
  successfulDestination : Option (List Char)
  errorMessages : List ErrorRecord
  errors : List (List Char)
deriving DecidableEq

/-- The `for`-loop of `forwardToPrimaryDestination` (`worker.js` lines
217-250), with the loop state (`s`, `hadRecoverableError`, `errorMessages`,
`errors`) passed explicitly and `full` the whole primary destination (for the
final `primaryDestination.at(s)`).  Besides the result it returns the trace
of backup destinations on which `message.forward` was attempted, in order. -/
def primaryForwardLoop (forward : List Char → ForwardOutcome)
    (recoverable : List Char → Bool) (primaryDestinationId : Nat)
    (full : List (List Char)) :
    List (List Char) → Nat → Bool → List ErrorRecord → List (List Char) →
      PrimaryDestinationResult × List (List Char)
  | [], _, hre, errMsgs, errs => (⟨false, hre, none, errMsgs, errs⟩, [])
  | d :: rest, s, hre, errMsgs, errs =>
    match forward d with
    | ForwardOutcome.success => (⟨true, hre, full.get? s, errMsgs, errs⟩, [d])
    | ForwardOutcome.failure m =>
      let r := primaryForwardLoop forward recoverable primaryDestinationId full
        rest (s + 1) (hre || recoverable m)
        (errMsgs ++ [⟨primaryDestinationId, s + 1, d, m⟩]) (errs ++ [m])
      (r.1, d :: r.2)

/-- Models `DEFAULTS.forwardToPrimaryDestination` (`worker.js` lines
210-258): attempt each backup destination sequentially until one forward
succeeds, catching and recording every thrown delivery error. -/
def forwardToPrimaryDestination (forward : List Char → ForwardOutcome)
    (recoverable : List Char → Bool) (primaryDestinationId : Nat)
    (primaryDestination : List (List Char)) :
    PrimaryDestinationResult × List (List Char) :=
  primaryForwardLoop forward recoverable primaryDestinationId
    primaryDestination primaryDestination 0 false [] []

/-- The message a failing `forward` call throws at destination `d` (and `[]`
at a succeeding one; only used below where `d` is known to fail). -/
def failMsg (forward : List Char → ForwardOutcome) (d : List Char) : List Char :=
  match forward d with
  | ForwardOutcome.success => []
  | ForwardOutcome.failure m => m

/-- The error records generated by a run of failing attempts starting at
0-based index `s`. -/
def failRecords (forward : List Char → ForwardOutcome)
    (primaryDestinationId : Nat) : Nat → List (List Char) → List ErrorRecord
  | _, [] => []
  | s, d :: rest =>
    ⟨primaryDestinationId, s + 1, d, failMsg forward d⟩ ::
      failRecords forward primaryDestinationId (s + 1) rest

/-- The error records of the failing attempts within an attempt trace (a
succeeding attempt contributes none). -/
def traceFailRecords (forward : List Char → ForwardOutcome)
    (primaryDestinationId : Nat) : Nat → List (List Char) → List ErrorRecord
  | _, [] => []
  | s, d :: rest =>
    match forward d with
    | ForwardOutcome.success => traceFailRecords forward primaryDestinationId (s + 1) rest
    | ForwardOutcome.failure m =>
      ⟨primaryDestinationId, s + 1, d, m⟩ ::
        traceFailRecords forward primaryDestinationId (s + 1) rest

theorem failRecords_map_errorMessage (forward : List Char → ForwardOutcome)
    (pid : Nat) (L : List (List Char)) :
    ∀ s : Nat, (failRecords forward pid s L).map ErrorRecord.errorMessage
      = L.map (failMsg forward) := by
  induction L with
  | nil => intro s; rfl
  | cons d rest ih => intro s; simp [failRecords, ih]

/-- Loop behaviour when every destination in the remaining list fails. -/
theorem primaryForwardLoop_all_fail (forward : List Char → ForwardOutcome)
    (recoverable : List Char → Bool) (pid : Nat) (full : List (List Char))
    (L : List (List Char)) :
    ∀ (s : Nat) (hre : Bool) (em : List ErrorRecord) (er : List (List Char)),
      (∀ d ∈ L, forward d ≠ ForwardOutcome.success) →
      primaryForwardLoop forward recoverable pid full L s hre em er =
        (⟨false,
          hre || (L.map (fun d => recoverable (failMsg forward d))).any id,
          none,
          em ++ failRecords forward pid s L,
          er ++ L.map (failMsg forward)⟩,
         L) := by
  induction L with
  | nil =>
    intro s hre em er _
    simp [primaryForwardLoop, failRecords]
  | cons d rest ih =>
    intro s hre em er hfail
    have hd := hfail d (List.mem_cons_self d rest)
    cases hfd : forward d with
    | success => exact absurd hfd hd
    | failure m =>
      have hrest : ∀ x ∈ rest, forward x ≠ ForwardOutcome.success :=
        fun x hx => hfail x (List.mem_cons_of_mem d hx)
      simp only [primaryForwardLoop, hfd,
        ih (s + 1) (hre || recoverable m)
          (em ++ [⟨pid, s + 1, d, m⟩]) (er ++ [m]) hrest]
      simp [failRecords, failMsg, hfd, Bool.or_assoc, List.append_assoc]

/-- Loop behaviour when index `k` is the first succeeding destination. -/
theorem primaryForwardLoop_first_success (forward : List Char → ForwardOutcome)
    (recoverable : List Char → Bool) (pid : Nat) (full : List (List Char))
    (L : List (List Char)) :
    ∀ (k : Nat) (hk : k < L.length) (s : Nat) (hre : Bool)
      (em : List ErrorRecord) (er : List (List Char)),
      (∀ j (hj : j < L.length), j < k → forward (L.get ⟨j, hj⟩) ≠ ForwardOutcome.success) →
      forward (L.get ⟨k, hk⟩) = ForwardOutcome.success →
      primaryForwardLoop forward recoverable pid full L s hre em er =
        (⟨true,
          hre || ((L.take k).map (fun d => recoverable (failMsg forward d))).any id,
          full.get? (s + k),
          em ++ failRecords forward pid s (L.take k),
          er ++ (L.take k).map (failMsg forward)⟩,
         L.take (k + 1)) := by
  induction L with
  | nil =>
    intro k hk
    exact absurd hk (by simp)
  | cons d rest ih =>
    intro k hk s hre em er hbefore hsucc
    cases k with
    | zero =>
      have hd : forward d = ForwardOutcome.success := hsucc
      simp [primaryForwardLoop, hd, failRecords]
    | succ j =>
      have hd : forward d ≠ ForwardOutcome.success := by
        have := hbefore 0 (by simp) (Nat.succ_pos j)
        simpa using this
      cases hfd : forward d with
      | success => exact absurd hfd hd
      | failure m =>
        have hj' : j < rest.length := by
          simpa [List.length_cons, Nat.succ_lt_succ_iff] using hk
        have hbefore' : ∀ i (hi : i < rest.length), i < j →
            forward (rest.get ⟨i, hi⟩) ≠ ForwardOutcome.success := by
          intro i hi hij
          have := hbefore (i + 1) (by simp [List.length_cons]; omega)
            (by omega)
          simpa using this
        have hsucc' : forward (rest.get ⟨j, hj'⟩) = ForwardOutcome.success := by
          simpa using hsucc
        simp only [primaryForwardLoop, hfd,
          ih j hj' (s + 1) (hre || recoverable m)
            (em ++ [⟨pid, s + 1, d, m⟩]) (er ++ [m]) hbefore' hsucc']
        have hidx : s + 1 + j = s + (j + 1) := by omega
        simp [List.take_succ_cons, failRecords, failMsg, hfd, Bool.or_assoc,
          List.append_assoc, hidx]

/-- General loop behaviour: the returned `errorMessages`/`errors` extend the
accumulators with exactly the failing attempts of the trace, and the trace
is a prefix of the destination list. -/
theorem primaryForwardLoop_records (forward : List Char → ForwardOutcome)
    (recoverable : List Char → Bool) (pid : Nat) (full : List (List Char))
    (L : List (List Char)) :
    ∀ (s : Nat) (hre : Bool) (em : List ErrorRecord) (er : List (List Char)),
      (primaryForwardLoop forward recoverable pid full L s hre em er).1.errorMessages
          = em ++ traceFailRecords forward pid s
              (primaryForwardLoop forward recoverable pid full L s hre em er).2
      ∧ (primaryForwardLoop forward recoverable pid full L s hre em er).1.errors
          = er ++ ((primaryForwardLoop forward recoverable pid full L s hre em er).2.filterMap
              (fun d => match forward d with
                | ForwardOutcome.success => none
                | ForwardOutcome.failure m => some m))
      ∧ ∃ t, (primaryForwardLoop forward recoverable pid full L s hre em er).2 ++ t = L := by
  induction L with
  | nil =>
    intro s hre em er
    refine ⟨by simp [primaryForwardLoop, traceFailRecords], ?_, ⟨[], rfl⟩⟩
    simp [primaryForwardLoop]
  | cons d rest ih =>
    intro s hre em er
    cases hfd : forward d with
    | success =>
      refine ⟨?_, ?_, ⟨rest, ?_⟩⟩ <;>
        simp [primaryForwardLoop, hfd, traceFailRecords]
    | failure m =>
      obtain ⟨h1, h2, t, ht⟩ := ih (s + 1) (hre || recoverable m)
        (em ++ [⟨pid, s + 1, d, m⟩]) (er ++ [m])
      refine ⟨?_, ?_, ⟨t, ?_⟩⟩
      · simp only [primaryForwardLoop, hfd, h1, traceFailRecords]
        simp [List.append_assoc]
      · simp only [primaryForwardLoop, hfd, h2]
        simp [List.filterMap_cons, hfd, List.append_assoc]
      · simp only [primaryForwardLoop, hfd]
        simpa using ht

/-- If the loop reports success then some attempted destination succeeded. -/
theorem primaryForwardLoop_success_mem (forward : List Char → ForwardOutcome)
    (recoverable : List Char → Bool) (pid : Nat) (full : List (List Char))
    (L : List (List Char)) :
    ∀ (s : Nat) (hre : Bool) (em : List ErrorRecord) (er : List (List Char)),
      (primaryForwardLoop forward recoverable pid full L s hre em er).1.wasSuccessful = true →
      ∃ d ∈ L, forward d = ForwardOutcome.success := by
  induction L with
  | nil =>
    intro s hre em er h
    simp [primaryForwardLoop] at h
  | cons d rest ih =>
    intro s hre em er h
    cases hfd : forward d with
    | success => exact ⟨d, List.mem_cons_self d rest, hfd⟩
    | failure m =>
      simp only [primaryForwardLoop, hfd] at h
      obtain ⟨x, hx, hxs⟩ := ih _ _ _ _ h
      exact ⟨x, List.mem_cons_of_mem d hx, hxs⟩

theorem any_map_id_iff {α : Type} (L : List α) (g : α → Bool) :
    (L.map g).any id = true ↔ ∃ d ∈ L, g d = true := by
  induction L with
  | nil => simp
  | cons d rest ih => simp [ih]

theorem any_recoverable_iff (forward : List Char → ForwardOutcome)
    (recoverable : List Char → Bool) (pid : Nat) (L : List (List Char)) :
    ((L.map (fun d => recoverable (failMsg forward d))).any id = true)
      ↔ ∃ e ∈ failRecords forward pid 0 L, recoverable e.errorMessage = true := by
  rw [any_map_id_iff]
  constructor
  · rintro ⟨d, hd, hgd⟩
    have hmem : failMsg forward d ∈ (failRecords forward pid 0 L).map ErrorRecord.errorMessage := by
      rw [failRecords_map_errorMessage]
      exact List.mem_map_of_mem _ hd
    obtain ⟨e, he, hee⟩ := List.mem_map.mp hmem
    exact ⟨e, he, by rw [hee]; exact hgd⟩
  · rintro ⟨e, he, hre⟩
    have hmem : e.errorMessage ∈ (failRecords forward pid 0 L).map ErrorRecord.errorMessage :=
      List.mem_map_of_mem _ he
    rw [failRecords_map_errorMessage] at hmem
    obtain ⟨d, hd, hde⟩ := List.mem_map.mp hmem
    exact ⟨d, hd, by rw [hde]; exact hre⟩

/-- C3: `forwardToPrimaryDestination` attempts the backups strictly in list
order: when index `k` holds the first succeeding backup, exactly the backups
up to and including `k` are attempted (none after it) and that address is
recorded as `successfulDestination`; when every backup fails, every backup is
attempted, `wasSuccessful = false`, and `hadRecoverableError = true` iff at
least one recorded failure's message matches the recoverable pattern. -/
theorem forwardToPrimaryDestination_failover (forward : List Char → ForwardOutcome)
    (recoverable : List Char → Bool) (pid : Nat) (L : List (List Char)) :
    (∀ k (hk : k < L.length),
        (∀ j (hj : j < L.length), j < k → forward (L.get ⟨j, hj⟩) ≠ ForwardOutcome.success) →
        forward (L.get ⟨k, hk⟩) = ForwardOutcome.success →
        (forwardToPrimaryDestination forward recoverable pid L).2 = L.take (k + 1)
        ∧ (forwardToPrimaryDestination forward recoverable pid L).1.wasSuccessful = true
        ∧ (forwardToPrimaryDestination forward recoverable pid L).1.successfulDestination
            = some (L.get ⟨k, hk⟩))
    ∧ ((∀ d ∈ L, forward d ≠ ForwardOutcome.success) →
        (forwardToPrimaryDestination forward recoverable pid L).2 = L
        ∧ (forwardToPrimaryDestination forward recoverable pid L).1.wasSuccessful = false
        ∧ ((forwardToPrimaryDestination forward recoverable pid L).1.hadRecoverableError = true
            ↔ ∃ e ∈ (forwardToPrimaryDestination forward recoverable pid L).1.errorMessages,
                recoverable e.errorMessage = true)) := by
  constructor
  · intro k hk hbefore hsucc
    have h := primaryForwardLoop_first_success forward recoverable pid L L k hk
      0 false [] [] hbefore hsucc
    simp only [forwardToPrimaryDestination, h]
    refine ⟨trivial, trivial, ?_⟩
    show L.get? (0 + k) = some (L.get ⟨k, hk⟩)
    rw [Nat.zero_add]
    exact List.get?_eq_get hk
  · intro hfail
    have h := primaryForwardLoop_all_fail forward recoverable pid L L 0 false [] [] hfail
    simp only [forwardToPrimaryDestination, h]
    refine ⟨trivial, trivial, ?_⟩
    show (false || (L.map (fun d => recoverable (failMsg forward d))).any id) = true
        ↔ ∃ e ∈ ([] ++ failRecords forward pid 0 L), recoverable e.errorMessage = true
    rw [Bool.false_or, List.nil_append]
    exact any_recoverable_iff forward recoverable pid L

/-- A sample transport oracle: delivery to `b@x.com` succeeds, everything
else fails with a transport error message. -/
def demoForward : List Char → ForwardOutcome :=
  fun d => if d = "b@x.com".data then ForwardOutcome.success
           else ForwardOutcome.failure ("could not send email".data)

/-- A sample recoverable-error classifier matching the transport-error
message prefix. -/
def demoRecoverable : List Char → Bool :=
  fun m => leadsWith ("could not send email".data) m

/-- Witness for C3: with `[A, B, C]` where `A` fails and `B` succeeds, the
attempt trace is `[A, B]` (never `C`) and `B` is the successful destination. -/
theorem forwardToPrimaryDestination_failover_witness :
    (forwardToPrimaryDestination demoForward demoRecoverable 1
        ["a@x.com".data, "b@x.com".data, "c@x.com".data]).2
      = ["a@x.com".data, "b@x.com".data]
    ∧ (forwardToPrimaryDestination demoForward demoRecoverable 1
        ["a@x.com".data, "b@x.com".data, "c@x.com".data]).1.wasSuccessful = true
    ∧ (forwardToPrimaryDestination demoForward demoRecoverable 1
        ["a@x.com".data, "b@x.com".data, "c@x.com".data]).1.successfulDestination
      = some ("b@x.com".data) := by
  have h := (forwardToPrimaryDestination_failover demoForward demoRecoverable 1
    ["a@x.com".data, "b@x.com".data, "c@x.com".data]).1 1 (by decide)
    (by decide) (by decide)
  exact ⟨h.1, h.2.1, h.2.2⟩

/-- The list of per-primary results computed by
`forwardToCompoundDestination` via `Promise.all` over
`compoundDestination.map` (`worker.js` lines 266-272); indices are 0-based,
`primaryDestinationId` is `index + 1`. -/
def compoundResults (forward : List Char → ForwardOutcome)
    (recoverable : List Char → Bool)
    (compoundDestination : List (List (List Char))) :
    List PrimaryDestinationResult :=
  compoundDestination.enum.map
    (fun pe => (forwardToPrimaryDestination forward recoverable (pe.1 + 1) pe.2).1)

/-- The aggregation step of `forwardToCompoundDestination` (`worker.js`
lines 273-301): `hadRecoverableError` when some unsuccessful primary had a
recoverable error; `wasSuccessful` when no such error and some primary
succeeded; throws `RecoverableForwardError` (modelled as `Except.error`
carrying the flattened error messages) iff `hadRecoverableError`. -/
def compoundAggregate (results : List PrimaryDestinationResult) :
    Except (List (List Char)) Bool :=
  let hadRecoverableError :=
    (results.map (fun r => (!r.wasSuccessful && r.hadRecoverableError))).any id
  let wasSuccessful :=
    !hadRecoverableError && (results.map (fun r => r.wasSuccessful)).any id
  if hadRecoverableError then Except.error (results.flatMap (fun r => r.errors))
  else Except.ok wasSuccessful

/-- Models `DEFAULTS.forwardToCompoundDestination` (`worker.js` lines
265-302). -/
def forwardToCompoundDestination (forward : List Char → ForwardOutcome)
    (recoverable : List Char → Bool)
    (compoundDestination : List (List (List Char))) :
    Except (List (List Char)) Bool :=
  compoundAggregate (compoundResults forward recoverable compoundDestination)

theorem compoundAggregate_cases (results : List PrimaryDestinationResult) :
    ((∃ e, compoundAggregate results = Except.error e)
        ↔ ∃ r ∈ results, r.wasSuccessful = false ∧ r.hadRecoverableError = true)
    ∧ (compoundAggregate results = Except.ok true
        ↔ ((¬∃ r ∈ results, r.wasSuccessful = false ∧ r.hadRecoverableError = true)
           ∧ ∃ r ∈ results, r.wasSuccessful = true))
    ∧ ((∃ r ∈ results, r.wasSuccessful = false ∧ r.hadRecoverableError = true) →
         ∃ e, compoundAggregate results = Except.error e) := by
  have hmain : ((results.map (fun r => (!r.wasSuccessful && r.hadRecoverableError))).any id = true)
      ↔ ∃ r ∈ results, r.wasSuccessful = false ∧ r.hadRecoverableError = true := by
    rw [any_map_id_iff]
    exact exists_congr fun r => and_congr_right fun _ => by
      cases h1 : r.wasSuccessful <;> cases h2 : r.hadRecoverableError <;> simp
  have hsucc : ((results.map (fun r => r.wasSuccessful)).any id = true)
      ↔ ∃ r ∈ results, r.wasSuccessful = true := any_map_id_iff results _
  cases hb : (results.map (fun r => (!r.wasSuccessful && r.hadRecoverableError))).any id with
  | true =>
    have herr : compoundAggregate results
        = Except.error (results.flatMap (fun r => r.errors)) := by
      simp [compoundAggregate, hb]
    refine ⟨?_, ?_, fun _ => ⟨_, herr⟩⟩
    · rw [← hmain]
      exact ⟨fun _ => hb, fun _ => ⟨_, herr⟩⟩
    · constructor
      · intro h
        rw [herr] at h
        cases h
      · rintro ⟨hno, -⟩
        exact absurd (hmain.mp hb) hno
  | false =>
    have hok : compoundAggregate results
        = Except.ok ((results.map (fun r => r.wasSuccessful)).any id) := by
      simp [compoundAggregate, hb]
    have hnot : ¬∃ r ∈ results, r.wasSuccessful = false ∧ r.hadRecoverableError = true := by
      intro h
      rw [← hmain] at h
      rw [hb] at h
      cases h
    refine ⟨?_, ?_, fun h => absurd h hnot⟩
    · constructor
      · rintro ⟨e, he⟩
        rw [hok] at he
        cases he
      · intro h
        exact absurd h hnot
    · rw [hok]
      constructor
      · intro h
        injection h with h2
        exact ⟨hnot, hsucc.mp h2⟩
      · rintro ⟨-, h2⟩
        rw [hsucc.mpr h2]

/-- C1: `forwardToCompoundDestination` aggregates the completed primary
results exactly as specified: it raises iff some primary result has
`wasSuccessful = false` and `hadRecoverableError = true`; it returns `true`
iff no such primary exists and some primary succeeded; and a recoverable
error forces a raise even when another primary in the same compound
destination succeeded. -/
theorem forwardToCompoundDestination_aggregation (forward : List Char → ForwardOutcome)
    (recoverable : List Char → Bool)
    (compoundDestination : List (List (List Char))) :
    forwardToCompoundDestination forward recoverable compoundDestination
        = compoundAggregate (compoundResults forward recoverable compoundDestination)
    ∧ ∀ results : List PrimaryDestinationResult,
        ((∃ e, compoundAggregate results = Except.error e)
            ↔ ∃ r ∈ results, r.wasSuccessful = false ∧ r.hadRecoverableError = true)
        ∧ (compoundAggregate results = Except.ok true
            ↔ ((¬∃ r ∈ results, r.wasSuccessful = false ∧ r.hadRecoverableError = true)
               ∧ ∃ r ∈ results, r.wasSuccessful = true))
        ∧ ((∃ r ∈ results, r.wasSuccessful = false ∧ r.hadRecoverableError = true) →
             ∃ e, compoundAggregate results = Except.error e) :=
  ⟨rfl, fun results => compoundAggregate_cases results⟩

/-- Two sample primary results: the first succeeded, the second failed with
a recoverable error. -/
def demoResults : List PrimaryDestinationResult :=
  [⟨true, false, some ("a@x.com".data), [], []⟩,
   ⟨false, true, none,
    [⟨2, 1, "b@x.com".data, "could not send email".data⟩],
    ["could not send email".data]⟩]

/-- Witness for C1: aggregation raises although the first primary succeeded,
because the second had a recoverable error without succeeding. -/
theorem forwardToCompoundDestination_aggregation_witness :
    ∃ e, compoundAggregate demoResults = Except.error e :=
  ((forwardToCompoundDestination_aggregation demoForward demoRecoverable []).2
      demoResults).2.2 (by decide)

/-- C10: for every behaviour of the external `forward` operation,
`forwardToPrimaryDestination` returns a `PrimaryDestinationResult` whose
`errorMessages`/`errors` record exactly the delivery errors thrown along its
attempt trace (a prefix of the backup list) — nothing escapes the per-primary
loop; and whenever the forwarding path raises (`forwardToCompoundDestination`
returns an error) the raise originates in the compound-level aggregation of
an unsuccessful primary result with a recoverable error. -/
theorem forwardToPrimaryDestination_never_raises (forward : List Char → ForwardOutcome)
    (recoverable : List Char → Bool) (pid : Nat) (L : List (List Char)) :
    (forwardToPrimaryDestination forward recoverable pid L).1.errorMessages
        = traceFailRecords forward pid 0
            (forwardToPrimaryDestination forward recoverable pid L).2
    ∧ (forwardToPrimaryDestination forward recoverable pid L).1.errors
        = ((forwardToPrimaryDestination forward recoverable pid L).2.filterMap
            (fun d => match forward d with
              | ForwardOutcome.success => none
              | ForwardOutcome.failure m => some m))
    ∧ (∃ t, (forwardToPrimaryDestination forward recoverable pid L).2 ++ t = L)
    ∧ ∀ (compoundDestination : List (List (List Char))) (e : List (List Char)),
        forwardToCompoundDestination forward recoverable compoundDestination
            = Except.error e →
        ∃ r ∈ compoundResults forward recoverable compoundDestination,
          r.wasSuccessful = false ∧ r.hadRecoverableError = true := by
  obtain ⟨h1, h2, h3⟩ := primaryForwardLoop_records forward recoverable pid L L 0 false [] []
  refine ⟨by simpa using h1, by simpa using h2, h3, ?_⟩
  intro c e he
  exact (compoundAggregate_cases (compoundResults forward recoverable c)).1.mp ⟨e, he⟩

/-- Witness for C10: a compound destination whose single primary fails with
a recoverable error makes the compound level (and only it) raise, traced to
that unsuccessful primary result. -/
theorem forwardToPrimaryDestination_never_raises_witness :
    ∃ r ∈ compoundResults demoForward demoRecoverable [["a@x.com".data]],
      r.wasSuccessful = false ∧ r.hadRecoverableError = true :=
  (forwardToPrimaryDestination_never_raises demoForward demoRecoverable 1 []).2.2.2
    [["a@x.com".data]] ["could not send email".data] (by rfl)

/-- Output of `validatePrimaryDestination` (`worker.js` lines 436-452). -/
structure PrimaryValidation where
  validBackup : List (List Char)
  invalidBackup : List (List Char)
deriving DecidableEq

/-- One backup candidate: trim, then prepend the message user when the
candidate begins with the local-part separator or with `@` (`worker.js`
lines 439-442). -/
def backupCandidate (messageUser locSep : List Char) (basicDestination : List Char) :
    List Char :=
  prepend (jsTrim basicDestination)
    [(PrependTest.strTest locSep, messageUser),
     (PrependTest.strTest (['@'] : List Char), messageUser)]

/-- Models `validatePrimaryDestination` (`worker.js` lines 436-452): split a
primary destination spec on the backup separator, expand shorthand, and sort
each non-empty candidate into `validBackup` or `invalidBackup` according to
the email-address validity test. -/
def validatePrimaryDestination (valid : List Char → Bool)
    (messageUser locSep backupSep : List Char)
    (primaryDestinationText : List Char) : PrimaryValidation :=
  (splitOnSep backupSep primaryDestinationText).foldl
    (fun acc basicDestination =>
      let backupDestination := backupCandidate messageUser locSep basicDestination
      if valid backupDestination then
        { acc with validBackup := acc.validBackup ++ [backupDestination] }
      else if backupDestination ≠ [] then
        { acc with invalidBackup := acc.invalidBackup ++ [backupDestination] }
      else acc)
    ⟨[], []⟩

/-- Output of `validateCompoundDestination` (`worker.js` lines 453-475). -/
structure CompoundValidation where
  validPrimary : List (List (List Char))
  validBackup : List (List Char)
  invalidBackup : List (List Char)
  duplicateBackup : List (List Char)
deriving DecidableEq

/-- The inner `reduce` step of `validateCompoundDestination` (`worker.js`
lines 458-467): thread the compound-scope seen set (`validBackup`) while
building the deduplicated primary; a candidate already seen is pushed onto
`duplicateBackup` instead. -/
def dedupStep (st : List (List Char) × CompoundValidation) (destination : List Char) :
    List (List Char) × CompoundValidation :=
  if destination ∈ st.2.validBackup then
    (st.1, { st.2 with duplicateBackup := st.2.duplicateBackup ++ [destination] })
  else
    (st.1 ++ [destination], { st.2 with validBackup := st.2.validBackup ++ [destination] })

/-- The outer `reduce` step of `validateCompoundDestination` (`worker.js`
lines 455-471).  The source's line 470 calls
`newCompoundDestination.invalidBackup.concat(...)` and discards the returned
array (`Array.prototype.concat` does not mutate), so `invalidBackup` is left
unchanged here, faithfully to the code. -/
def compoundStep (valid : List Char → Bool) (messageUser locSep backupSep : List Char)
    (acc : CompoundValidation) (primaryDestinationText : List Char) : CompoundValidation :=
  let nonDeduped :=
    validatePrimaryDestination valid messageUser locSep backupSep primaryDestinationText
  let st := nonDeduped.validBackup.foldl dedupStep ([], acc)
  if 0 < st.1.length then
    { st.2 with validPrimary := st.2.validPrimary ++ [st.1] }
  else st.2

/-- Models `validateCompoundDestination` (`worker.js` lines 453-475). -/
def validateCompoundDestination (valid : List Char → Bool)
    (messageUser locSep backupSep primarySep : List Char)
    (compoundDestinationText : List Char) : CompoundValidation :=
  (splitOnSep primarySep compoundDestinationText).foldl
    (compoundStep valid messageUser locSep backupSep) ⟨[], [], [], []⟩

/-- The valid backup candidates of one primary destination spec, in order. -/
def primaryCandidates (valid : List Char → Bool)
    (messageUser locSep backupSep : List Char)
    (primaryDestinationText : List Char) : List (List Char) :=
  (validatePrimaryDestination valid messageUser locSep backupSep
    primaryDestinationText).validBackup

/-- Spec-side first-occurrence deduplication relative to a seen set: keeps
each element's first occurrence not already seen, in order. -/
def keepFirst (seen : List (List Char)) : List (List Char) → List (List Char)
  | [] => []
  | x :: rest =>
    if x ∈ seen then keepFirst seen rest else x :: keepFirst (seen ++ [x]) rest

/-- Spec-side complement of `keepFirst`: the occurrences dropped as
duplicates, in order. -/
def dupsAfterFirst (seen : List (List Char)) : List (List Char) → List (List Char)
  | [] => []
  | x :: rest =>
    if x ∈ seen then x :: dupsAfterFirst seen rest else dupsAfterFirst (seen ++ [x]) rest

/-- Spec-side per-primary surviving backup lists: each primary keeps its
first-occurrence candidates, and a primary whose surviving list is empty is
omitted entirely. -/
def keptPrimaries (cands : List Char → List (List Char)) :
    List (List Char) → List (List Char) → List (List (List Char))
  | _, [] => []
  | seen, p :: rest =>
    (if keepFirst seen (cands p) = [] then [] else [keepFirst seen (cands p)]) ++
      keptPrimaries cands (seen ++ keepFirst seen (cands p)) rest

/-- All valid candidates of a compound destination, in processing order. -/
def allValidCandidates (cands : List Char → List (List Char))
    (ps : List (List Char)) : List (List Char) :=
  ps.flatMap cands

theorem allValidCandidates_cons (cands : List Char → List (List Char))
    (p : List Char) (rest : List (List Char)) :
    allValidCandidates cands (p :: rest) = cands p ++ allValidCandidates cands rest := by
  simp [allValidCandidates]

theorem dedup_fold (cs : List (List Char)) :
    ∀ (dp vb ib db : List (List Char)) (vp : List (List (List Char))),
      cs.foldl dedupStep (dp, ⟨vp, vb, ib, db⟩) =
        (dp ++ keepFirst vb cs,
         ⟨vp, vb ++ keepFirst vb cs, ib, db ++ dupsAfterFirst vb cs⟩) := by
  induction cs with
  | nil =>
    intro dp vb ib db vp
    simp [keepFirst, dupsAfterFirst]
  | cons x rest ih =>
    intro dp vb ib db vp
    by_cases hx : x ∈ vb
    · rw [List.foldl_cons]
      have hstep : dedupStep (dp, ⟨vp, vb, ib, db⟩) x
          = (dp, ⟨vp, vb, ib, db ++ [x]⟩) := by
        simp [dedupStep, hx]
      rw [hstep, ih]
      simp [keepFirst, dupsAfterFirst, hx, List.append_assoc]
    · rw [List.foldl_cons]
      have hstep : dedupStep (dp, ⟨vp, vb, ib, db⟩) x
          = (dp ++ [x], ⟨vp, vb ++ [x], ib, db⟩) := by
        simp [dedupStep, hx]
      rw [hstep, ih]
      simp [keepFirst, dupsAfterFirst, hx, List.append_assoc]

theorem keepFirst_append (a b : List (List Char)) :
    ∀ seen, keepFirst seen (a ++ b)
      = keepFirst seen a ++ keepFirst (seen ++ keepFirst seen a) b := by
  induction a with
  | nil => intro seen; simp [keepFirst]
  | cons x rest ih =>
    intro seen
    by_cases hx : x ∈ seen
    · simp [keepFirst, hx, ih]
    · simp [keepFirst, hx, ih, List.append_assoc]

theorem dupsAfterFirst_append (a b : List (List Char)) :
    ∀ seen, dupsAfterFirst seen (a ++ b)
      = dupsAfterFirst seen a ++ dupsAfterFirst (seen ++ keepFirst seen a) b := by
  induction a with
  | nil => intro seen; simp [keepFirst, dupsAfterFirst]
  | cons x rest ih =>
    intro seen
    by_cases hx : x ∈ seen
    · simp [keepFirst, dupsAfterFirst, hx, ih]
    · simp [keepFirst, dupsAfterFirst, hx, ih, List.append_assoc]

theorem compoundStep_eq (valid : List Char → Bool)
    (messageUser locSep backupSep : List Char)
    (vb ib db : List (List Char)) (vp : List (List (List Char))) (p : List Char) :
    compoundStep valid messageUser locSep backupSep ⟨vp, vb, ib, db⟩ p =
      ⟨vp ++ (if keepFirst vb (primaryCandidates valid messageUser locSep backupSep p) = []
              then []
              else [keepFirst vb (primaryCandidates valid messageUser locSep backupSep p)]),
       vb ++ keepFirst vb (primaryCandidates valid messageUser locSep backupSep p),
       ib,
       db ++ dupsAfterFirst vb (primaryCandidates valid messageUser locSep backupSep p)⟩ := by
  have hcands : (validatePrimaryDestination valid messageUser locSep backupSep p).validBackup
      = primaryCandidates valid messageUser locSep backupSep p := rfl
  simp only [compoundStep, hcands, dedup_fold, List.nil_append]
  by_cases hk : keepFirst vb (primaryCandidates valid messageUser locSep backupSep p) = []
  · simp [hk]
  · have hpos : 0 < (keepFirst vb (primaryCandidates valid messageUser locSep backupSep p)).length :=
      List.length_pos.mpr hk
    simp [hk, hpos]

theorem compound_fold (valid : List Char → Bool)
    (messageUser locSep backupSep : List Char) (ps : List (List Char)) :
    ∀ (vb ib db : List (List Char)) (vp : List (List (List Char))),
      ps.foldl (compoundStep valid messageUser locSep backupSep) ⟨vp, vb, ib, db⟩ =
        ⟨vp ++ keptPrimaries (primaryCandidates valid messageUser locSep backupSep) vb ps,
         vb ++ keepFirst vb
           (allValidCandidates (primaryCandidates valid messageUser locSep backupSep) ps),
         ib,
         db ++ dupsAfterFirst vb
           (allValidCandidates (primaryCandidates valid messageUser locSep backupSep) ps)⟩ := by
  induction ps with
  | nil =>
    intro vb ib db vp
    simp [keptPrimaries, allValidCandidates, keepFirst, dupsAfterFirst]
  | cons p rest ih =>
    intro vb ib db vp
    rw [List.foldl_cons, compoundStep_eq, ih]
    rw [allValidCandidates_cons, keepFirst_append, dupsAfterFirst_append]
    by_cases hk : keepFirst vb (primaryCandidates valid messageUser locSep backupSep p) = []
    · simp [keptPrimaries, hk, List.append_assoc]
    · simp [keptPrimaries, hk, List.append_assoc]

theorem keepFirst_mem (x : List Char) (l : List (List Char)) :
    ∀ seen, x ∈ keepFirst seen l ↔ x ∈ l ∧ x ∉ seen := by
  induction l with
  | nil => intro seen; simp [keepFirst]
  | cons y rest ih =>
    intro seen
    by_cases hy : y ∈ seen
    · rw [keepFirst, if_pos hy, ih, List.mem_cons]
      constructor
      · rintro ⟨hx, hns⟩
        exact ⟨Or.inr hx, hns⟩
      · rintro ⟨hx | hx, hns⟩
        · exact absurd (hx ▸ hy) hns
        · exact ⟨hx, hns⟩
    · rw [keepFirst, if_neg hy, List.mem_cons, List.mem_cons]
      by_cases hxy : x = y
      · subst hxy
        simp [hy]
      · rw [ih, List.mem_append, List.mem_singleton]
        constructor
        · rintro (rfl | ⟨hx, hns⟩)
          · exact absurd rfl hxy
          · exact ⟨Or.inr hx, fun hs => hns (Or.inl hs)⟩
        · rintro ⟨rfl | hx, hns⟩
          · exact absurd rfl hxy
          · exact Or.inr ⟨hx, fun hs => hns (by
              rcases hs with hs | hs
              · exact hs
              · exact absurd hs hxy)⟩

theorem keepFirst_nodup (l : List (List Char)) :
    ∀ seen, (keepFirst seen l).Nodup := by
  induction l with
  | nil => intro seen; simp [keepFirst]
  | cons y rest ih =>
    intro seen
    by_cases hy : y ∈ seen
    · rw [keepFirst, if_pos hy]
      exact ih seen
    · rw [keepFirst, if_neg hy, List.nodup_cons]
      refine ⟨?_, ih _⟩
      intro hmem
      rw [keepFirst_mem] at hmem
      exact hmem.2 (by simp)

theorem keptPrimaries_flatten (cands : List Char → List (List Char))
    (ps : List (List Char)) :
    ∀ seen, (keptPrimaries cands seen ps).flatten = keepFirst seen (allValidCandidates cands ps) := by
  induction ps with
  | nil => intro seen; simp [keptPrimaries, allValidCandidates, keepFirst]
  | cons p rest ih =>
    intro seen
    rw [allValidCandidates_cons, keepFirst_append]
    by_cases hk : keepFirst seen (cands p) = []
    · simp [keptPrimaries, hk, ih]
    · simp [keptPrimaries, hk, ih]

theorem keptPrimaries_ne_nil (cands : List Char → List (List Char))
    (ps : List (List Char)) :
    ∀ seen, ∀ q ∈ keptPrimaries cands seen ps, q ≠ [] := by
  induction ps with
  | nil =>
    intro seen q hq
    simp [keptPrimaries] at hq
  | cons p rest ih =>
    intro seen q hq
    by_cases hk : keepFirst seen (cands p) = []
    · rw [keptPrimaries, if_pos hk] at hq
      simp only [List.nil_append] at hq
      exact ih _ q hq
    · rw [keptPrimaries, if_neg hk] at hq
      rcases List.mem_append.mp hq with hq | hq
      · rw [List.mem_singleton.mp hq]
        exact hk
      · exact ih _ q hq

/-- C4: for every compound-destination spec, the `validPrimary` output keeps
exactly the first valid occurrence of each address, in processing order
(`validPrimary` equals the spec-side per-primary first-occurrence lists, its
flattening is the first-occurrence dedup of all valid candidates, hence
duplicate-free and containing exactly the valid candidates), every later
occurrence goes to `duplicateBackup`, and no primary with an empty surviving
backup list appears. -/
theorem validateCompoundDestination_dedup (valid : List Char → Bool)
    (messageUser locSep backupSep primarySep text : List Char) :
    (validateCompoundDestination valid messageUser locSep backupSep primarySep text).validPrimary
        = keptPrimaries (primaryCandidates valid messageUser locSep backupSep) []
            (splitOnSep primarySep text)
    ∧ (validateCompoundDestination valid messageUser locSep backupSep primarySep
        text).validPrimary.flatten
        = keepFirst []
            (allValidCandidates (primaryCandidates valid messageUser locSep backupSep)
              (splitOnSep primarySep text))
    ∧ (validateCompoundDestination valid messageUser locSep backupSep primarySep
        text).duplicateBackup
        = dupsAfterFirst []
            (allValidCandidates (primaryCandidates valid messageUser locSep backupSep)
              (splitOnSep primarySep text))
    ∧ (validateCompoundDestination valid messageUser locSep backupSep primarySep
        text).validPrimary.flatten.Nodup
    ∧ (∀ x, x ∈ (validateCompoundDestination valid messageUser locSep backupSep primarySep
          text).validPrimary.flatten
        ↔ x ∈ allValidCandidates (primaryCandidates valid messageUser locSep backupSep)
            (splitOnSep primarySep text))
    ∧ (∀ p ∈ (validateCompoundDestination valid messageUser locSep backupSep primarySep
          text).validPrimary, p ≠ []) := by
  have hfold := compound_fold valid messageUser locSep backupSep
    (splitOnSep primarySep text) [] [] [] []
  have hvc : validateCompoundDestination valid messageUser locSep backupSep primarySep text
      = ⟨keptPrimaries (primaryCandidates valid messageUser locSep backupSep) []
           (splitOnSep primarySep text),
         keepFirst []
           (allValidCandidates (primaryCandidates valid messageUser locSep backupSep)
             (splitOnSep primarySep text)),
         [],
         dupsAfterFirst []
           (allValidCandidates (primaryCandidates valid messageUser locSep backupSep)
             (splitOnSep primarySep text))⟩ := by
    rw [validateCompoundDestination, hfold]
    simp
  rw [hvc]
  refine ⟨rfl, ?_, rfl, ?_, ?_, ?_⟩
  · exact keptPrimaries_flatten _ _ []
  · rw [keptPrimaries_flatten _ _ []]
    exact keepFirst_nodup _ []
  · intro x
    rw [keptPrimaries_flatten _ _ [], keepFirst_mem]
    simp
  · exact keptPrimaries_ne_nil _ _ []

/-- Validity test standing in for the configured email-address regexp in the
concrete evaluations below. -/
def containsAtSign (s : List Char) : Bool := s.contains '@'

/-- Witness for C4: in `"a@x:b@x,a@x"` the duplicate second primary is
dropped entirely, and the surviving primary is non-empty. -/
theorem validateCompoundDestination_dedup_witness :
    ["a@x".data, "b@x".data] ≠ ([] : List (List Char)) :=
  (validateCompoundDestination_dedup containsAtSign "user".data "+".data ":".data
      ",".data "a@x:b@x,a@x".data).2.2.2.2.2 ["a@x".data, "b@x".data] (by decide)

/-- C5 (code bug): `validatePrimaryDestination` records the invalid non-empty
candidate `"bogus"`, but `validateCompoundDestination` returns an empty
`invalidBackup` — `worker.js` line 470 discards the result of
`Array.prototype.concat` — although the candidate is (correctly) excluded
from `validPrimary`; indeed `invalidBackup` is `[]` for every input. -/
theorem validateCompoundDestination_invalidBackup_lost :
    (validatePrimaryDestination containsAtSign "user".data "+".data ":".data
        "bogus".data).invalidBackup = ["bogus".data]
    ∧ (validateCompoundDestination containsAtSign "user".data "+".data ":".data ",".data
        "bogus".data).invalidBackup = []
    ∧ (validateCompoundDestination containsAtSign "user".data "+".data ":".data ",".data
        "bogus".data).validPrimary = []
    ∧ ∀ (valid : List Char → Bool) (messageUser locSep backupSep primarySep text : List Char),
        (validateCompoundDestination valid messageUser locSep backupSep primarySep
          text).invalidBackup = [] := by
  refine ⟨by decide, by decide, by decide, ?_⟩
  intro valid messageUser locSep backupSep primarySep text
  rw [validateCompoundDestination,
    compound_fold valid messageUser locSep backupSep (splitOnSep primarySep text) [] [] [] []]

/-- Models `storedConfigurationValue` (`worker.js` lines 353-359): a store
lookup gated by a flag; an absent key (JS `null`, coalesced to `undefined`)
and a disabled lookup are both `none`, while a stored empty string is
`some []`. -/
def storedConfigurationValue (store : List Char → Option (List Char))
    (shouldLoad : Bool) (key : List Char) : Option (List Char) :=
  if shouldLoad then store key else none

/-- Models the `messageUserIsAllowed` computation (`worker.js` lines
553-557): the per-user store lookup produced a value
(`userDestinationWithRejectTreatment !== undefined`), or the resolved global
users value is the wildcard, or the user is among the trimmed entries of the
global users list split on the primary-address separator. -/
def messageUserIsAllowed (store : List Char → Option (List Char))
    (useStoredUserConfiguration : Bool)
    (globalUsers messageUser primarySep : List Char) : Bool :=
  (storedConfigurationValue store useStoredUserConfiguration messageUser).isSome
  || decide (globalUsers = ['*'])
  || decide (messageUser ∈ (splitOnSep primarySep globalUsers).map jsTrim)

/-- C7: `messageUserIsAllowed` is true iff the per-user key exists in the
store with stored user configuration enabled (independently of the stored
value, an empty string included, since only `Option.isSome` is consulted),
or the resolved global allowed-users value is `"*"`, or the user equals one
of the trimmed entries of the separator-split global allowed-users list. -/
theorem messageUserIsAllowed_spec (store : List Char → Option (List Char))
    (useStoredUserConfiguration : Bool)
    (globalUsers messageUser primarySep : List Char) :
    messageUserIsAllowed store useStoredUserConfiguration globalUsers messageUser primarySep
        = true
      ↔ ((useStoredUserConfiguration = true ∧ (store messageUser).isSome = true)
         ∨ globalUsers = ['*']
         ∨ messageUser ∈ (splitOnSep primarySep globalUsers).map jsTrim) := by
  unfold messageUserIsAllowed storedConfigurationValue
  cases useStoredUserConfiguration <;>
    simp [Bool.or_eq_true, decide_eq_true_eq, or_assoc]

/-- Witness for C7: a stored key with an empty-string value still allows the
user when stored user configuration is enabled. -/
theorem messageUserIsAllowed_spec_witness :
    messageUserIsAllowed
        (fun k => if k = "user1".data then some [] else none) true
        "".data "user1".data ",".data = true :=
  (messageUserIsAllowed_spec (fun k => if k = "user1".data then some [] else none)
      true "".data "user1".data ",".data).mpr
    (Or.inl ⟨rfl, by decide⟩)

/-- Models `userSubaddresses.replace(startsWithLocalPartSeparatorRegExp, '')`
(`worker.js` lines 531-532): removes one leading occurrence of the
local-part separator. -/
def stripLeadingOnce (sep s : List Char) : List Char :=
  if leadsWith sep s then s.drop sep.length else s

/-- Models `userRequiresSubaddress` (`worker.js` lines 529-530). -/
def userRequiresSubaddress (locSep userSubaddresses : List Char) : Bool :=
  leadsWith locSep userSubaddresses

/-- Models `userConcreteSubaddresses` (`worker.js` lines 531-532): the
resolved subaddress value with a leading separator stripped, then trimmed. -/
def userConcreteSubaddresses (locSep userSubaddresses : List Char) : List Char :=
  jsTrim (stripLeadingOnce locSep userSubaddresses)

/-- Models the `messageSubaddressIsAllowed` computation (`worker.js` lines
563-568). -/
def messageSubaddressIsAllowed
    (locSep primarySep userSubaddresses messageSubaddress : List Char) : Bool :=
  if messageSubaddress = [] then !(userRequiresSubaddress locSep userSubaddresses)
  else
    decide (userConcreteSubaddresses locSep userSubaddresses = ['*'])
    || decide (messageSubaddress ∈
        (splitOnSep primarySep (userConcreteSubaddresses locSep userSubaddresses)).map jsTrim)

/-- C8 counterexample: for the resolved subaddress value `"+ *"` and
subaddress `"a"`, the code allows the subaddress (the value with the leading
separator stripped is trimmed to `"*"` before the wildcard comparison),
while the claim — comparing the merely stripped value `" *"` with `"*"` and
searching `"a"` among its trimmed entries — predicts disallowed. -/
theorem messageSubaddressIsAllowed_claim_counterexample :
    messageSubaddressIsAllowed "+".data ",".data "+ *".data "a".data = true
    ∧ stripLeadingOnce "+".data "+ *".data ≠ "*".data
    ∧ "a".data ∉
        (splitOnSep ",".data (stripLeadingOnce "+".data "+ *".data)).map jsTrim := by
  refine ⟨by decide, by decide, by decide⟩

/-- C8 (amended): a recipient with an empty subaddress is allowed iff the
resolved subaddress value does not begin with the separator (so a leading
separator makes a subaddress mandatory even though the remainder lists
permitted subaddresses); a recipient with a non-empty subaddress is allowed
iff the value with any leading separator stripped *and then trimmed* is
`"*"` or contains the subaddress among its trimmed comma-separated
entries. -/
theorem messageSubaddressIsAllowed_spec
    (locSep primarySep userSubaddresses messageSubaddress : List Char) :
    (messageSubaddress = [] →
        (messageSubaddressIsAllowed locSep primarySep userSubaddresses messageSubaddress
            = true
          ↔ ¬leadsWith locSep userSubaddresses = true))
    ∧ (messageSubaddress ≠ [] →
        (messageSubaddressIsAllowed locSep primarySep userSubaddresses messageSubaddress
            = true
          ↔ (userConcreteSubaddresses locSep userSubaddresses = ['*']
             ∨ messageSubaddress ∈
                (splitOnSep primarySep
                  (userConcreteSubaddresses locSep userSubaddresses)).map jsTrim))) := by
  constructor
  · intro h
    simp [messageSubaddressIsAllowed, h, userRequiresSubaddress]
  · intro h
    simp [messageSubaddressIsAllowed, h, Bool.or_eq_true, decide_eq_true_eq]

/-- Witness for C8 at a concrete allowed subaddress. -/
theorem messageSubaddressIsAllowed_spec_witness :
    messageSubaddressIsAllowed "+".data ",".data "suba,subb".data "suba".data = true
      ↔ (userConcreteSubaddresses "+".data "suba,subb".data = ['*']
         ∨ "suba".data ∈
            (splitOnSep ",".data
              (userConcreteSubaddresses "+".data "suba,subb".data)).map jsTrim) :=
  (messageSubaddressIsAllowed_spec "+".data ",".data "suba,subb".data "suba".data).2
    (by decide)

/-- `DEFAULTS.REJECT_TREATMENT` (`worker.js` line 105). -/
def DEFAULT_REJECT_TREATMENT : List Char := "Address does not exist".data

/-- Models the `userRejectReason` chain (`worker.js` lines 609-613).  In JS,
`!x.includes('@') && x` evaluates to `false` when `x` contains `'@'` and to
the string `x` otherwise, and `||` skips both `false` and the empty string
(falsy); the third candidate tests `'@'` on the raw environment value but
yields its trimmed form, and the hard default is yielded trimmed. -/
def rejectReasonChain
    (userRejectTreatment globalRejectTreatment envRejectTreatment : List Char) :
    List Char :=
  if !(userRejectTreatment.contains '@') && !userRejectTreatment.isEmpty then
    userRejectTreatment
  else if !(globalRejectTreatment.contains '@') && !globalRejectTreatment.isEmpty then
    globalRejectTreatment
  else if !(envRejectTreatment.contains '@') && !(jsTrim envRejectTreatment).isEmpty then
    jsTrim envRejectTreatment
  else jsTrim DEFAULT_REJECT_TREATMENT

/-- Models `fullRejectReason` (`worker.js` lines 616-619): the chained
reject reason, with the original message local-part prepended when the
reason starts with a non-alphanumeric character. -/
def fullRejectReason
    (userRejectTreatment globalRejectTreatment envRejectTreatment
      messageLocalPart : List Char) : List Char :=
  prepend (rejectReasonChain userRejectTreatment globalRejectTreatment envRejectTreatment)
    [(PrependTest.nonAlphanumericStart, messageLocalPart)]

/-- Spec-side formulation of the fallback chain: the first candidate pair
whose raw form has no `'@'` and whose yielded value is non-empty. -/
def firstUsableCandidate : List (List Char × List Char) → List Char → List Char
  | [], dflt => dflt
  | (raw, value) :: rest, dflt =>
    if !(raw.contains '@') && !value.isEmpty then value
    else firstUsableCandidate rest dflt

/-- The claim's candidate order, amended with the non-emptiness skip. -/
def rejectReasonChainSpec (u g e : List Char) : List Char :=
  firstUsableCandidate [(u, u), (g, g), (e, jsTrim e)] (jsTrim DEFAULT_REJECT_TREATMENT)

/-- C6 counterexample: with all three configured reject treatments empty,
the first candidate containing no `'@'` is the empty per-user treatment, so
the claim predicts an empty final reason (the prepend rule does not fire on
an empty reason); the code instead skips empty (falsy) candidates and
direct-rejects with the trimmed hard default. -/
theorem rejectReason_claim_counterexample :
    ("".data.contains '@') = false
    ∧ fullRejectReason "".data "".data "".data "user+tag".data
        = "Address does not exist".data
    ∧ "Address does not exist".data ≠ "".data := by
  refine ⟨by decide, by decide, by decide⟩

/-- C6 (amended): when direct-rejecting, the final reject reason is the
first *non-empty* candidate that does not contain `'@'`, in the order
resolved per-user reject-treatment, resolved global reject-treatment,
trimmed raw environment reject-treatment (its `'@'` test on the untrimmed
value), with the trimmed hard default as last resort; and if the chosen
reason begins with a non-alphanumeric character the original message
local-part is prepended, otherwise the reason passes through unchanged. -/
theorem rejectReason_spec (u g e lp : List Char) :
    rejectReasonChain u g e = rejectReasonChainSpec u g e
    ∧ (∀ c cs, rejectReasonChain u g e = c :: cs →
        fullRejectReason u g e lp
          = (if c.isAlphanum then rejectReasonChain u g e
             else lp ++ rejectReasonChain u g e))
    ∧ (rejectReasonChain u g e = [] → fullRejectReason u g e lp = []) := by
  refine ⟨?_, ?_, ?_⟩
  · simp [rejectReasonChain, rejectReasonChainSpec, firstUsableCandidate]
  · intro c cs hc
    unfold fullRejectReason
    rw [hc]
    cases hca : c.isAlphanum <;> simp [prepend, testMatches, hca]
  · intro hnil
    unfold fullRejectReason
    rw [hnil]
    simp [prepend, testMatches]

/-- Witness for C6 at the spec's examples: `": spam"` with local-part
`"user+tag"` becomes `"user+tag: spam"`, while the alphanumeric-leading
`"No such recipient"` passes through unchanged. -/
theorem rejectReason_spec_witness :
    fullRejectReason ": spam".data "".data "".data "user+tag".data
        = "user+tag: spam".data
    ∧ fullRejectReason "No such recipient".data "".data "".data "user+tag".data
        = "No such recipient".data := by
  constructor
  · rw [(rejectReason_spec ": spam".data "".data "".data "user+tag".data).2.1
      ':' " spam".data (by decide)]
    decide
  · rw [(rejectReason_spec "No such recipient".data "".data "".data "user+tag".data).2.1
      'N' "o such recipient".data (by decide)]
    decide

/-- If the compound forward reports success, some backup of some primary in
the compound destination received a successful `forward`. -/
theorem forwardToCompoundDestination_ok_true (forward : List Char → ForwardOutcome)
    (recoverable : List Char → Bool) (c : List (List (List Char)))
    (h : forwardToCompoundDestination forward recoverable c = Except.ok true) :
    ∃ p ∈ c, ∃ d ∈ p, forward d = ForwardOutcome.success := by
  have hcases := (compoundAggregate_cases (compoundResults forward recoverable c)).2.1
  rw [forwardToCompoundDestination] at h
  obtain ⟨-, r, hr, hrs⟩ := hcases.mp h
  rw [compoundResults] at hr
  obtain ⟨pe, hpe, hre⟩ := List.mem_map.mp hr
  have hp : pe.2 ∈ c := by
    rw [List.enum_eq_zip_range] at hpe
    exact (List.of_mem_zip hpe).2
  have hsucc : (forwardToPrimaryDestination forward recoverable (pe.1 + 1)
      pe.2).1.wasSuccessful = true := by
    rw [hre]
    exact hrs
  obtain ⟨d, hd, hds⟩ := primaryForwardLoop_success_mem forward recoverable (pe.1 + 1)
    pe.2 pe.2 0 false [] [] hsucc
  exact ⟨pe.2, hp, d, hd, hds⟩

/-- Conversely, when some destination in the remaining list would succeed,
the loop reports success (the forward oracle is a pure function, so the
first such destination is reached and succeeds). -/
theorem primaryForwardLoop_success_of_mem (forward : List Char → ForwardOutcome)
    (recoverable : List Char → Bool) (pid : Nat) (full : List (List Char))
    (L : List (List Char)) :
    ∀ (s : Nat) (hre : Bool) (em : List ErrorRecord) (er : List (List Char)),
      (∃ d ∈ L, forward d = ForwardOutcome.success) →
      (primaryForwardLoop forward recoverable pid full L s hre em er).1.wasSuccessful = true := by
  induction L with
  | nil =>
    intro s hre em er h
    simp at h
  | cons d rest ih =>
    intro s hre em er h
    cases hfd : forward d with
    | success => simp [primaryForwardLoop, hfd]
    | failure m =>
      obtain ⟨x, hx, hxs⟩ := h
      rcases List.mem_cons.mp hx with rfl | hx2
      · rw [hfd] at hxs
        cases hxs
      · simp only [primaryForwardLoop, hfd]
        exact ih _ _ _ _ ⟨x, hx2, hxs⟩

theorem mem_enumFrom_of_mem {α : Type} {x : α} :
    ∀ {l : List α} (n : Nat), x ∈ l → ∃ i, (i, x) ∈ l.enumFrom n := by
  intro l
  induction l with
  | nil =>
    intro n h
    cases h
  | cons a t ih =>
    intro n h
    rcases List.mem_cons.mp h with rfl | ht
    · exact ⟨n, by simp [List.enumFrom]⟩
    · obtain ⟨i, hi⟩ := ih (n + 1) ht
      refine ⟨i, ?_⟩
      simp only [List.enumFrom]
      exact List.mem_cons_of_mem _ hi

theorem mem_enum_of_mem {α : Type} {x : α} {l : List α} (h : x ∈ l) :
    ∃ i, (i, x) ∈ l.enum := by
  obtain ⟨i, hi⟩ := mem_enumFrom_of_mem 0 h
  exact ⟨i, by simpa [List.enum] using hi⟩

theorem compoundAggregate_ok_false (results : List PrimaryDestinationResult)
    (h : compoundAggregate results = Except.ok false) :
    ∀ r ∈ results, r.wasSuccessful = false := by
  cases hb : (results.map (fun r => (!r.wasSuccessful && r.hadRecoverableError))).any id with
  | true =>
    rw [show compoundAggregate results
        = Except.error (results.flatMap (fun r => r.errors)) by
      simp [compoundAggregate, hb]] at h
    cases h
  | false =>
    rw [show compoundAggregate results
        = Except.ok ((results.map (fun r => r.wasSuccessful)).any id) by
      simp [compoundAggregate, hb]] at h
    injection h with h2
    intro r hr
    cases hw : r.wasSuccessful
    · rfl
    · have : (results.map (fun r => r.wasSuccessful)).any id = true :=
        (any_map_id_iff results _).mpr ⟨r, hr, hw⟩
      rw [h2] at this
      cases this

/-- If the compound forward completes with `false` (no raise, no success),
then no delivery attempt of any of its primaries succeeded: every
destination of every primary fails under the forward oracle. -/
theorem forwardToCompoundDestination_ok_false (forward : List Char → ForwardOutcome)
    (recoverable : List Char → Bool) (c : List (List (List Char)))
    (h : forwardToCompoundDestination forward recoverable c = Except.ok false) :
    ∀ p ∈ c, ∀ d ∈ p, forward d ≠ ForwardOutcome.success := by
  intro p hp d hd hds
  obtain ⟨i, hi⟩ := mem_enum_of_mem hp
  have hr : (forwardToPrimaryDestination forward recoverable (i + 1) p).1
      ∈ compoundResults forward recoverable c := by
    rw [compoundResults]
    exact List.mem_map.mpr ⟨(i, p), hi, rfl⟩
  have hws : (forwardToPrimaryDestination forward recoverable (i + 1)
      p).1.wasSuccessful = true :=
    primaryForwardLoop_success_of_mem forward recoverable (i + 1) p p 0 false [] []
      ⟨d, hd, hds⟩
  have hfalse : (forwardToPrimaryDestination forward recoverable (i + 1)
      p).1.wasSuccessful = false :=
    compoundAggregate_ok_false (compoundResults forward recoverable c) h _ hr
  rw [hws] at hfalse
  cases hfalse

/-- Result of a completed (non-raising) run of the disposition stage of the
`email` handler: the two forwarding success flags and the list of `setReject`
invocations, in order. -/
structure EmailResult where
  acceptForwardWasSuccessful : Bool
  rejectForwardWasSuccessful : Bool
  rejects : List (List Char)
deriving DecidableEq

/-- Models the disposition stage of the `email` handler (`worker.js` lines
570-627), given the already-computed allow flags and resolved configuration
values: when the user and subaddress are allowed, attempt the accept forward
over the validated destination; if that did not succeed, attempt the reject
forward when it has at least one valid primary; if that did not succeed
either, call `setReject` once with the full reject reason.  A raised
`RecoverableForwardError` propagates out as `Except.error`. -/
def email (forward : List Char → ForwardOutcome) (recoverable valid : List Char → Bool)
    (messageUserIsAllowedB messageSubaddressIsAllowedB : Bool)
    (userDestination userRejectTreatment globalRejectTreatment envRejectTreatment
      messageLocalPart messageUser locSep backupSep primarySep : List Char) :
    Except (List (List Char)) EmailResult :=
  Except.bind
    (if messageUserIsAllowedB && messageSubaddressIsAllowedB then
      forwardToCompoundDestination forward recoverable
        (validateCompoundDestination valid messageUser locSep backupSep primarySep
          userDestination).validPrimary
     else Except.ok false)
    (fun acceptForwardWasSuccessful =>
      if acceptForwardWasSuccessful then Except.ok ⟨true, false, []⟩
      else
        Except.bind
          (if 0 < (validateCompoundDestination valid messageUser locSep backupSep
              primarySep userRejectTreatment).validPrimary.length then
            forwardToCompoundDestination forward recoverable
              (validateCompoundDestination valid messageUser locSep backupSep primarySep
                userRejectTreatment).validPrimary
           else Except.ok false)
          (fun rejectForwardWasSuccessful =>
            if rejectForwardWasSuccessful then Except.ok ⟨false, true, []⟩
            else Except.ok ⟨false, false,
              [fullRejectReason userRejectTreatment globalRejectTreatment
                envRejectTreatment messageLocalPart]⟩))

/-- C2: one invocation of the disposition stage produces exactly one of
three outcomes: it raises (the recoverable-error resend signal); or it
completes with at least one successful forward — some backup of the accept
or reject-forward compound destination received a successful `forward` — and
`setReject` is never invoked; or it completes with no successful forward —
every destination of every compound destination it attempted (the accept one
whenever the allow flags held, the reject-forward one in any case) fails
under the forward oracle, so no delivery occurred — and `setReject` is
invoked exactly once.  `setReject` is never invoked more than once per
invocation. -/
theorem email_outcomes (forward : List Char → ForwardOutcome)
    (recoverable valid : List Char → Bool)
    (uAllowed sAllowed : Bool)
    (userDestination userRejectTreatment globalRejectTreatment envRejectTreatment
      messageLocalPart messageUser locSep backupSep primarySep : List Char) :
    match email forward recoverable valid uAllowed sAllowed userDestination
        userRejectTreatment globalRejectTreatment envRejectTreatment messageLocalPart
        messageUser locSep backupSep primarySep with
    | Except.error _ => True
    | Except.ok r =>
        ((r.acceptForwardWasSuccessful || r.rejectForwardWasSuccessful) = true
          ∧ r.rejects = []
          ∧ ∃ p, (p ∈ (validateCompoundDestination valid messageUser locSep backupSep
                    primarySep userDestination).validPrimary
                  ∨ p ∈ (validateCompoundDestination valid messageUser locSep backupSep
                    primarySep userRejectTreatment).validPrimary)
              ∧ ∃ d ∈ p, forward d = ForwardOutcome.success)
        ∨ ((r.acceptForwardWasSuccessful || r.rejectForwardWasSuccessful) = false
          ∧ r.rejects.length = 1
          ∧ ((uAllowed && sAllowed) = true →
              ∀ p ∈ (validateCompoundDestination valid messageUser locSep backupSep
                  primarySep userDestination).validPrimary,
                ∀ d ∈ p, forward d ≠ ForwardOutcome.success)
          ∧ (∀ p ∈ (validateCompoundDestination valid messageUser locSep backupSep
                primarySep userRejectTreatment).validPrimary,
              ∀ d ∈ p, forward d ≠ ForwardOutcome.success)) := by
  by_cases hallow : (uAllowed && sAllowed) = true
  · cases hacc : forwardToCompoundDestination forward recoverable
        (validateCompoundDestination valid messageUser locSep backupSep primarySep
          userDestination).validPrimary with
    | error e =>
      have hval : email forward recoverable valid uAllowed sAllowed userDestination
          userRejectTreatment globalRejectTreatment envRejectTreatment messageLocalPart
          messageUser locSep backupSep primarySep = Except.error e := by
        simp [email, hallow, hacc, Except.bind]
      rw [hval]
      exact trivial
    | ok b =>
      cases b with
      | true =>
        have hval : email forward recoverable valid uAllowed sAllowed userDestination
            userRejectTreatment globalRejectTreatment envRejectTreatment messageLocalPart
            messageUser locSep backupSep primarySep = Except.ok ⟨true, false, []⟩ := by
          simp [email, hallow, hacc, Except.bind]
        rw [hval]
        obtain ⟨p, hp, hd⟩ := forwardToCompoundDestination_ok_true forward recoverable _ hacc
        exact Or.inl ⟨rfl, rfl, p, Or.inl hp, hd⟩
      | false =>
        by_cases hrc : 0 < (validateCompoundDestination valid messageUser locSep backupSep
            primarySep userRejectTreatment).validPrimary.length
        · cases hrej : forwardToCompoundDestination forward recoverable
              (validateCompoundDestination valid messageUser locSep backupSep primarySep
                userRejectTreatment).validPrimary with
          | error e =>
            have hval : email forward recoverable valid uAllowed sAllowed userDestination
                userRejectTreatment globalRejectTreatment envRejectTreatment
                messageLocalPart messageUser locSep backupSep primarySep
                = Except.error e := by
              simp [email, hallow, hacc, hrc, hrej, Except.bind]
            rw [hval]
            exact trivial
          | ok c =>
            cases c with
            | true =>
              have hval : email forward recoverable valid uAllowed sAllowed userDestination
                  userRejectTreatment globalRejectTreatment envRejectTreatment
                  messageLocalPart messageUser locSep backupSep primarySep
                  = Except.ok ⟨false, true, []⟩ := by
                simp [email, hallow, hacc, hrc, hrej, Except.bind]
              rw [hval]
              obtain ⟨p, hp, hd⟩ :=
                forwardToCompoundDestination_ok_true forward recoverable _ hrej
              exact Or.inl ⟨rfl, rfl, p, Or.inr hp, hd⟩
            | false =>
              have hval : email forward recoverable valid uAllowed sAllowed userDestination
                  userRejectTreatment globalRejectTreatment envRejectTreatment
                  messageLocalPart messageUser locSep backupSep primarySep
                  = Except.ok ⟨false, false,
                      [fullRejectReason userRejectTreatment globalRejectTreatment
                        envRejectTreatment messageLocalPart]⟩ := by
                simp [email, hallow, hacc, hrc, hrej, Except.bind]
              rw [hval]
              exact Or.inr ⟨rfl, rfl,
                fun _ => forwardToCompoundDestination_ok_false forward recoverable _ hacc,
                forwardToCompoundDestination_ok_false forward recoverable _ hrej⟩
        · have hval : email forward recoverable valid uAllowed sAllowed userDestination
              userRejectTreatment globalRejectTreatment envRejectTreatment
              messageLocalPart messageUser locSep backupSep primarySep
              = Except.ok ⟨false, false,
                  [fullRejectReason userRejectTreatment globalRejectTreatment
                    envRejectTreatment messageLocalPart]⟩ := by
            simp [email, hallow, hacc, hrc, Except.bind]
          rw [hval]
          have hempty : (validateCompoundDestination valid messageUser locSep backupSep
              primarySep userRejectTreatment).validPrimary = [] :=
            List.length_eq_zero.mp (by omega)
          refine Or.inr ⟨rfl, rfl,
            fun _ => forwardToCompoundDestination_ok_false forward recoverable _ hacc, ?_⟩
          intro p hp
          rw [hempty] at hp
          exact absurd hp (List.not_mem_nil p)
  · by_cases hrc : 0 < (validateCompoundDestination valid messageUser locSep backupSep
        primarySep userRejectTreatment).validPrimary.length
    · cases hrej : forwardToCompoundDestination forward recoverable
          (validateCompoundDestination valid messageUser locSep backupSep primarySep
            userRejectTreatment).validPrimary with
      | error e =>
        have hval : email forward recoverable valid uAllowed sAllowed userDestination
            userRejectTreatment globalRejectTreatment envRejectTreatment messageLocalPart
            messageUser locSep backupSep primarySep = Except.error e := by
          simp [email, hallow, hrc, hrej, Except.bind]
        rw [hval]
        exact trivial
      | ok c =>
        cases c with
        | true =>
          have hval : email forward recoverable valid uAllowed sAllowed userDestination
              userRejectTreatment globalRejectTreatment envRejectTreatment messageLocalPart
              messageUser locSep backupSep primarySep = Except.ok ⟨false, true, []⟩ := by
            simp [email, hallow, hrc, hrej, Except.bind]
          rw [hval]
          obtain ⟨p, hp, hd⟩ :=
            forwardToCompoundDestination_ok_true forward recoverable _ hrej
          exact Or.inl ⟨rfl, rfl, p, Or.inr hp, hd⟩
        | false =>
          have hval : email forward recoverable valid uAllowed sAllowed userDestination
              userRejectTreatment globalRejectTreatment envRejectTreatment messageLocalPart
              messageUser locSep backupSep primarySep
              = Except.ok ⟨false, false,
                  [fullRejectReason userRejectTreatment globalRejectTreatment
                    envRejectTreatment messageLocalPart]⟩ := by
            simp [email, hallow, hrc, hrej, Except.bind]
          rw [hval]
          exact Or.inr ⟨rfl, rfl, fun hcontra => absurd hcontra hallow,
            forwardToCompoundDestination_ok_false forward recoverable _ hrej⟩
    · have hval : email forward recoverable valid uAllowed sAllowed userDestination
          userRejectTreatment globalRejectTreatment envRejectTreatment messageLocalPart
          messageUser locSep backupSep primarySep
          = Except.ok ⟨false, false,
              [fullRejectReason userRejectTreatment globalRejectTreatment
                envRejectTreatment messageLocalPart]⟩ := by
        simp [email, hallow, hrc, Except.bind]
      rw [hval]
      have hempty : (validateCompoundDestination valid messageUser locSep backupSep
          primarySep userRejectTreatment).validPrimary = [] :=
        List.length_eq_zero.mp (by omega)
      refine Or.inr ⟨rfl, rfl, fun hcontra => absurd hcontra hallow, ?_⟩
      intro p hp
      rw [hempty] at hp
      exact absurd hp (List.not_mem_nil p)
